import Mathlib

/-!
Shallow embedding of the ledger engine of `src/app.py` (class `DataStore`
together with the `Account` and `Transaction` dataclasses).

Modelling conventions:
* Python `float` amounts and balances are modelled as exact rationals (`ℚ`);
  no claim under consideration depends on binary floating-point rounding.
* Python `datetime` values are modelled by their seven components
  (year, month, day, hour, minute, second, microsecond); `datetime`
  comparison is the lexicographic order on those components, and
  `datetime.fromisoformat` is the documented inverse of
  `datetime.isoformat`, so the serialized timestamp is carried by value.
* Python `dict` is modelled as an insertion-ordered association list with
  first-match lookup and replace-in-place update, which is the observable
  behaviour of `dict` for the operations the source uses.
* Raising an exception is modelled by `Except String`; a `try`/`except`
  block that swallows the exception returns the state reached at the point
  of the raise, mirroring Python's sequential field assignments.
* `DataStore.save` writes the file and leaves the in-memory state
  unchanged; it is modelled as a pure function from the state to the file
  image (`FileData`), and the in-memory state threads through mutating
  operations untouched by the write.
-/

/-- Python `datetime.datetime`, by components. -/
structure Datetime where
  year : ℕ
  month : ℕ
  day : ℕ
  hour : ℕ
  minute : ℕ
  second : ℕ
  microsecond : ℕ
deriving DecidableEq

/-- The component tuple of a `Datetime`, as a list ordered by significance;
`datetime` comparison in Python is lexicographic on this tuple. -/
def Datetime.key (d : Datetime) : List ℕ :=
  [d.year, d.month, d.day, d.hour, d.minute, d.second, d.microsecond]

instance : LE Datetime := ⟨fun a b => a.key ≤ b.key⟩

instance : DecidableRel (fun a b : Datetime => a ≤ b) :=
  fun a b => inferInstanceAs (Decidable (a.key ≤ b.key))

/-- `BASE_CURRENCY` from `src/app.py`. -/
def BASE_CURRENCY : String := "RUB"

/-- The `Account` dataclass. -/
structure Account where
  id : Int
  name : String
  acc_type : String
  currency : String
  initial_balance : ℚ
deriving DecidableEq

/-- The `Transaction` dataclass. -/
structure Transaction where
  id : Int
  date : Datetime
  account_id : Int
  category : String
  description : String
  amount : ℚ
  currency : String
deriving DecidableEq

/-- Lookup in an insertion-ordered association list (Python `dict` read;
`m.get(k)` and `m[k]` both read the unique binding of `k`). -/
def dictGet {κ α : Type} [DecidableEq κ] : List (κ × α) → κ → Option α
  | [], _ => none
  | p :: ps, k => if p.1 = k then some p.2 else dictGet ps k

/-- Update in an insertion-ordered association list (Python `dict` write:
`m[k] = v` replaces the binding in place when `k` is present, otherwise
appends it). -/
def dictSet {κ α : Type} [DecidableEq κ] : List (κ × α) → κ → α → List (κ × α)
  | [], k, v => [(k, v)]
  | p :: ps, k, v => if p.1 = k then (k, v) :: ps else p :: dictSet ps k v

/-- Replace the first element satisfying `p` (Python mutates the object
returned by a first-match linear search, leaving the rest of the list
untouched). -/
def updateFirst {α : Type} (p : α → Bool) (f : α → α) : List α → List α
  | [] => []
  | x :: xs => if p x then f x :: xs else x :: updateFirst p f xs

/-- The in-memory state of `DataStore`: `self.accounts`,
`self.transactions`, `self.settings`, `self._next_acc_id`,
`self._next_tx_id`. -/
structure DataStore where
  accounts : List Account
  transactions : List Transaction
  settings : List (String × String)
  next_acc_id : Int
  next_tx_id : Int
deriving DecidableEq

/-- `DataStore.get_account_by_id`: first account with the given id. -/
def DataStore.get_account_by_id (st : DataStore) (acc_id : Int) : Option Account :=
  st.accounts.find? (fun a => a.id = acc_id)

/-- `DataStore.add_account`: build the account from `_next_acc_id`, append
it, bump the counter, save, return the account. -/
def DataStore.add_account (st : DataStore) (name acc_type currency : String)
    (initial_balance : ℚ) : Account × DataStore :=
  let acc : Account :=
    { id := st.next_acc_id, name := name, acc_type := acc_type
      currency := currency, initial_balance := initial_balance }
  (acc, { st with accounts := st.accounts ++ [acc], next_acc_id := st.next_acc_id + 1 })

/-- `DataStore.update_account`: silent return when the id resolves to no
account; otherwise mutate the found account's `name`, `acc_type`,
`initial_balance` and save. -/
def DataStore.update_account (st : DataStore) (acc_id : Int) (name acc_type : String)
    (initial_balance : ℚ) : DataStore :=
  match st.get_account_by_id acc_id with
  | none => st
  | some _ =>
    { st with
      accounts := updateFirst (fun a => a.id = acc_id)
        (fun a => { a with name := name, acc_type := acc_type,
                           initial_balance := initial_balance })
        st.accounts }

/-- `DataStore.get_accounts` (returns a copy of the list). -/
def DataStore.get_accounts (st : DataStore) : List Account :=
  st.accounts

/-- `DataStore.get_account_balance`: 0 when the id resolves to no account,
else the account's `initial_balance` plus every transaction with matching
`account_id` and matching `currency`. -/
def DataStore.get_account_balance (st : DataStore) (acc_id : Int) : ℚ :=
  match st.get_account_by_id acc_id with
  | none => 0
  | some acc =>
    st.transactions.foldl
      (fun total t =>
        if t.account_id = acc_id ∧ t.currency = acc.currency then total + t.amount
        else total)
      acc.initial_balance

/-- `DataStore.get_overall_balance`: accumulate `get_account_balance` over
all accounts, starting from 0. -/
def DataStore.get_overall_balance (st : DataStore) : ℚ :=
  st.accounts.foldl (fun total acc => total + st.get_account_balance acc.id) 0

/-- `DataStore.add_transaction`: build the transaction from `_next_tx_id`
with `currency` forced to `BASE_CURRENCY`, append, bump the counter, save,
return it.  The Python `date` parameter defaults to `datetime.now()`; the
moment of creation is passed here explicitly. -/
def DataStore.add_transaction (st : DataStore) (account_id : Int) (amount : ℚ)
    (category description : String) (date : Datetime) : Transaction × DataStore :=
  let tx : Transaction :=
    { id := st.next_tx_id, date := date, account_id := account_id
      category := category, description := description, amount := amount
      currency := BASE_CURRENCY }
  (tx, { st with transactions := st.transactions ++ [tx], next_tx_id := st.next_tx_id + 1 })

/-- `DataStore.get_transaction_by_id`: first transaction with the given id. -/
def DataStore.get_transaction_by_id (st : DataStore) (tx_id : Int) : Option Transaction :=
  st.transactions.find? (fun t => t.id = tx_id)

/-- `DataStore.update_transaction`: silent return when the id resolves to
no transaction; otherwise mutate the found transaction's `account_id`,
`amount`, `category`, `description` and save. -/
def DataStore.update_transaction (st : DataStore) (tx_id : Int) (account_id : Int)
    (amount : ℚ) (category description : String) : DataStore :=
  match st.get_transaction_by_id tx_id with
  | none => st
  | some _ =>
    { st with
      transactions := updateFirst (fun t => t.id = tx_id)
        (fun t => { t with account_id := account_id, amount := amount,
                           category := category, description := description })
        st.transactions }

/-- `DataStore.delete_transaction`: keep the transactions whose id differs. -/
def DataStore.delete_transaction (st : DataStore) (tx_id : Int) : DataStore :=
  { st with transactions := st.transactions.filter (fun t => t.id ≠ tx_id) }

/-- Stable insertion of a transaction into a list already sorted by date
descending: the new element goes in front of the first element whose date
is `≤` its own, so an element inserted before later ones precedes any
equal-dated element inserted after it. -/
def insertDesc (t : Transaction) : List Transaction → List Transaction
  | [] => [t]
  | u :: us => if u.date ≤ t.date then t :: u :: us else u :: insertDesc t us

/-- Stable sort by date descending, inserting earlier-stored elements into
the sorted suffix: extensionally the behaviour of Python
`sorted(-, key=lambda t: t.date, reverse=True)`, whose sort is stable and
whose `reverse=True` preserves the original order of equal keys. -/
def sortByDateDesc : List Transaction → List Transaction
  | [] => []
  | t :: ts => insertDesc t (sortByDateDesc ts)

/-- `DataStore.get_transactions`: the transactions sorted by date
descending, stably. -/
def DataStore.get_transactions (st : DataStore) : List Transaction :=
  sortByDateDesc st.transactions

/-- `DataStore.get_month_summary`: one pass over the transactions,
accumulating `(income, expense, by_category)` over those in the same
calendar year and month as `now` (Python reads `datetime.now()`; the
reference moment is passed here explicitly).  `monthStep` is the loop
body. -/
def monthStep (now : Datetime) (s : ℚ × ℚ × List (String × ℚ)) (t : Transaction) :
    ℚ × ℚ × List (String × ℚ) :=
  if t.date.year = now.year ∧ t.date.month = now.month then
    let s1 : ℚ × ℚ × List (String × ℚ) :=
      if 0 ≤ t.amount then (s.1 + t.amount, s.2.1, s.2.2)
      else (s.1, s.2.1 + t.amount, s.2.2)
    (s1.1, s1.2.1, dictSet s1.2.2 t.category ((dictGet s1.2.2 t.category).getD 0 + t.amount))
  else s

def DataStore.get_month_summary (st : DataStore) (now : Datetime) :
    ℚ × ℚ × List (String × ℚ) :=
  st.transactions.foldl (monthStep now) (0, 0, [])

/-- Left-pad a numeral with zeros to width `w` (the behaviour of the
zero-padded `strftime` directives used in the source). -/
def padNum (w : ℕ) (n : ℕ) : String :=
  let s := toString n
  String.mk (List.replicate (w - s.length) '0') ++ s

/-- `t.date.strftime('%Y-%m-%d %H:%M')`. -/
def strftimeYMDHM (d : Datetime) : String :=
  padNum 4 d.year ++ "-" ++ padNum 2 d.month ++ "-" ++ padNum 2 d.day ++ " " ++
    padNum 2 d.hour ++ ":" ++ padNum 2 d.minute

/-- `t.description.replace(";", ",")`: every semicolon of the description
becomes a comma (character-wise map, which is what `str.replace` does for a
one-character pattern). -/
def escapeDesc (s : String) : String :=
  String.mk (s.data.map (fun c => if c = ';' then ',' else c))

/-- Rendering of a `float` amount into the CSV cell (`f"{t.amount}"`).
Python's shortest-round-trip `float` repr is abstracted to the rational
literal rendering; no property under study depends on the digits chosen. -/
def showAmount (q : ℚ) : String :=
  toString q

/-- `DataStore.export_csv`: the list of lines written to the report file
(the file content is these lines joined by a newline).  Starts from the
header literal of the source, builds `acc_by_id` as a dict keyed by
account id, and appends one semicolon-separated line per transaction of
`get_transactions()`, with `"?"` for an unresolved account and the
description semicolon-escaped and double-quoted. -/
def DataStore.export_csv (st : DataStore) : List String :=
  let acc_by_id : List (Int × Account) := st.accounts.foldl (fun m a => dictSet m a.id a) []
  st.get_transactions.foldl
    (fun lines t =>
      let acc_name :=
        match dictGet acc_by_id t.account_id with
        | some a => a.name
        | none => "?"
      let desc := escapeDesc t.description
      lines ++
        [toString t.id ++ ";" ++ strftimeYMDHM t.date ++ ";" ++ acc_name ++ ";" ++
          t.category ++ ";\"" ++ desc ++ "\";" ++ showAmount t.amount ++ ";" ++ BASE_CURRENCY])
    ["ID;Дата;Счет;Категория;Описание;Сумма;Валюта"]

/-- The JSON object written for one account by `Account.to_dict` and read
by `Account.from_dict`; a field is `none` when the key is absent from the
persisted record. -/
structure AccountDict where
  id : Option Int
  name : Option String
  acc_type : Option String
  currency : Option String
  initial_balance : Option ℚ
deriving DecidableEq

/-- `Account.to_dict`: every key present. -/
def Account.to_dict (a : Account) : AccountDict :=
  { id := some a.id, name := some a.name, acc_type := some a.acc_type,
    currency := some a.currency, initial_balance := some a.initial_balance }

/-- `Account.from_dict`: `data["id"]` and `data["name"]` raise `KeyError`
when absent (modelled by `Except.error`); the remaining keys default via
`data.get`, and `float` applied to an already-numeric value is the
identity. -/
def Account.from_dict (d : AccountDict) : Except String Account :=
  match d.id, d.name with
  | some i, some n =>
    .ok { id := i, name := n, acc_type := d.acc_type.getD "Счет",
          currency := d.currency.getD BASE_CURRENCY,
          initial_balance := d.initial_balance.getD 0 }
  | _, _ => .error "KeyError"

/-- The JSON object written for one transaction by `Transaction.to_dict`
and read by `Transaction.from_dict`.  The timestamp is serialized with
`datetime.isoformat()` and read back with `datetime.fromisoformat()`, the
documented inverse, so the field carries the `Datetime` value. -/
structure TransactionDict where
  id : Option Int
  date : Option Datetime
  account_id : Option Int
  category : Option String
  description : Option String
  amount : Option ℚ
  currency : Option String
deriving DecidableEq

/-- `Transaction.to_dict`: every key present. -/
def Transaction.to_dict (t : Transaction) : TransactionDict :=
  { id := some t.id, date := some t.date, account_id := some t.account_id,
    category := some t.category, description := some t.description,
    amount := some t.amount, currency := some t.currency }

/-- `Transaction.from_dict`: `data["id"]` and `data["date"]` raise
`KeyError` when absent; the remaining keys default via `data.get`, and
`int`/`float` conversions on already-numeric values are the identity. -/
def Transaction.from_dict (d : TransactionDict) : Except String Transaction :=
  match d.id, d.date with
  | some i, some dt =>
    .ok { id := i, date := dt, account_id := d.account_id.getD 1,
          category := d.category.getD "Прочие операционные расходы",
          description := d.description.getD "",
          amount := d.amount.getD 0, currency := d.currency.getD BASE_CURRENCY }
  | _, _ => .error "KeyError"

/-- The persisted file, as parsed by `json.load`: the three top-level
collections (an absent key is folded into its `raw.get` default, the empty
collection). -/
structure FileData where
  accounts : List AccountDict
  transactions : List TransactionDict
  settings : List (String × String)
deriving DecidableEq

/-- `DataStore.save`: the file image written on every mutation. -/
def DataStore.save (st : DataStore) : FileData :=
  { accounts := st.accounts.map Account.to_dict,
    transactions := st.transactions.map Transaction.to_dict,
    settings := st.settings }

/-- A Python list comprehension whose element expression may raise: the
first raise aborts the whole comprehension before anything is assigned. -/
def mapE {α β : Type} (f : α → Except String β) : List α → Except String (List β)
  | [] => .ok []
  | x :: xs =>
    match f x with
    | .error e => .error e
    | .ok y =>
      match mapE f xs with
      | .error e => .error e
      | .ok ys => .ok (y :: ys)

/-- `max(ids)` for a non-empty list (Python `max`; the `[]` case is
unreachable behind the source's non-emptiness guards). -/
def maxId : List Int → Int
  | [] => 0
  | x :: xs => xs.foldl max x

/-- `DataStore.load`.  The argument is the outcome of looking at the file:
`none` when `os.path.exists` is false, `some (.error e)` when `json.load`
(or the attribute access on a non-object root) raises, `some (.ok raw)`
when the file parses.  The `try` block assigns `self.accounts`, then
`self.transactions`, then the two counters and the settings merge, and a
raise anywhere is caught leaving the fields assigned so far in place. -/
def DataStore.load (st : DataStore) (file : Option (Except String FileData)) : DataStore :=
  match file with
  | none => st
  | some (.error _) => st
  | some (.ok raw) =>
    match mapE Account.from_dict raw.accounts with
    | .error _ => st
    | .ok accs =>
      let st1 := { st with accounts := accs }
      match mapE Transaction.from_dict raw.transactions with
      | .error _ => st1
      | .ok txs =>
        let st2 := { st1 with transactions := txs }
        let st3 :=
          if accs.isEmpty then st2
          else { st2 with next_acc_id := maxId (accs.map (fun a => a.id)) + 1 }
        let st4 :=
          if txs.isEmpty then st3
          else { st3 with next_tx_id := maxId (txs.map (fun t => t.id)) + 1 }
        { st4 with settings := raw.settings.foldl (fun m p => dictSet m p.1 p.2) st4.settings }

/-- The field values of a `DataStore` at the start of `__init__`, before
`self.load()` runs. -/
def initStore : DataStore :=
  { accounts := [], transactions := [], settings := [("user_name", "Компания")],
    next_acc_id := 1, next_tx_id := 1 }

/-- `DataStore.__init__`: start from the field defaults, load the file,
and seed one default account when none were loaded. -/
def DataStore.construct (file : Option (Except String FileData)) : DataStore :=
  let st := initStore.load file
  if st.accounts.isEmpty then (st.add_account "Расчетный счет" "Карта" BASE_CURRENCY 0).2
  else st

/-! ### Sample data for witnesses and counterexamples -/

/-- 2024-05-03 10:00. -/
def dMay3 : Datetime := ⟨2024, 5, 3, 10, 0, 0, 0⟩

/-- 2024-05-07 09:30. -/
def dMay7 : Datetime := ⟨2024, 5, 7, 9, 30, 0, 0⟩

/-- 2024-05-07 09:30 again (an exact tie with `dMay7`). -/
def dMay7b : Datetime := ⟨2024, 5, 7, 9, 30, 0, 0⟩

/-- 2024-06-01 08:00 (the following month). -/
def dJun1 : Datetime := ⟨2024, 6, 1, 8, 0, 0, 0⟩

def acc1 : Account := ⟨1, "Расчетный счет", "Карта", "RUB", 1000⟩

def acc2 : Account := ⟨2, "Касса", "Наличные", "RUB", 50⟩

def tx1 : Transaction := ⟨1, dMay3, 1, "Оказание услуг", "услуги", 500, "RUB"⟩

def tx2 : Transaction := ⟨2, dMay7, 1, "Аренда", "офис", -200, "RUB"⟩

/-- A transaction whose currency differs from its account's currency. -/
def tx3 : Transaction := ⟨3, dMay7b, 1, "Прочие доходы", "перевод", 100, "USD"⟩

def tx4 : Transaction := ⟨4, dJun1, 2, "Продажа товаров", "товар; партия", 70, "RUB"⟩

def sampleStore : DataStore :=
  ⟨[acc1, acc2], [tx1, tx2, tx3, tx4], [("user_name", "Компания")], 3, 5⟩

/-- The caller-supplied arguments of one `add_account` call. -/
structure AddParams where
  name : String
  acc_type : String
  currency : String
  initial_balance : ℚ
deriving DecidableEq

/-- Run a sequence of `add_account` calls, discarding the returned
accounts. -/
def DataStore.applyAdds (st : DataStore) : List AddParams → DataStore
  | [] => st
  | p :: ps =>
    ((st.add_account p.name p.acc_type p.currency p.initial_balance).2).applyAdds ps

/-- The state of a freshly constructed ledger (no persisted file) after a
sequence of `add_account` calls. -/
def freshAfter (l : List AddParams) : DataStore :=
  (DataStore.construct none).applyAdds l

/-- One report row as the specification reads: id, formatted timestamp,
the first-match resolved account name or the `"?"` placeholder, category,
the double-quoted semicolon-escaped description, amount, currency.  Used
as the refinement target for `export_csv`. -/
def specRow (st : DataStore) (t : Transaction) : String :=
  toString t.id ++ ";" ++ strftimeYMDHM t.date ++ ";" ++
    (match st.get_account_by_id t.account_id with
      | some a => a.name
      | none => "?") ++ ";" ++ t.category ++ ";\"" ++ escapeDesc t.description ++ "\";" ++
    showAmount t.amount ++ ";" ++ BASE_CURRENCY

/-! ### Generic fold lemmas -/

/-- A fold that conditionally accumulates a value equals the starting value
plus the sum over the filtered list. -/
theorem foldl_cond_sum {α : Type} (p : α → Prop) [DecidablePred p] (v : α → ℚ) :
    ∀ (l : List α) (b : ℚ),
      l.foldl (fun tot t => if p t then tot + v t else tot) b
        = b + ((l.filter (fun t => p t)).map v).sum
  | [], b => by simp
  | x :: xs, b => by
    by_cases h : p x
    · rw [List.foldl_cons, if_pos h, foldl_cond_sum p v xs (b + v x),
        List.filter_cons_of_pos (by simpa using h), List.map_cons, List.sum_cons]
      ring
    · rw [List.foldl_cons, if_neg h, foldl_cond_sum p v xs b,
        List.filter_cons_of_neg (by simpa using h)]

/-- A fold that unconditionally accumulates a value equals the starting
value plus the sum over the mapped list. -/
theorem foldl_add_sum {α : Type} (v : α → ℚ) :
    ∀ (l : List α) (b : ℚ),
      l.foldl (fun tot t => tot + v t) b = b + (l.map v).sum
  | [], b => by simp
  | x :: xs, b => by
    simp only [List.foldl_cons, List.map_cons, List.sum_cons]
    rw [foldl_add_sum v xs (b + v x)]
    ring

/-- Reading a dict right after writing one key. -/
theorem dictGet_dictSet {κ α : Type} [DecidableEq κ] :
    ∀ (m : List (κ × α)) (k k' : κ) (v : α),
      dictGet (dictSet m k v) k' = if k' = k then some v else dictGet m k'
  | [], k, k', v => by
    by_cases h : k' = k
    · subst h
      simp [dictGet, dictSet]
    · have hk : ¬ k = k' := fun hh => h hh.symm
      simp [dictGet, dictSet, h, hk]
  | p :: ps, k, k', v => by
    by_cases hp : p.1 = k
    · by_cases h : k' = k
      · subst h
        simp [dictGet, dictSet, hp]
      · have hk : ¬ k = k' := fun hh => h hh.symm
        have hpk' : ¬ p.1 = k' := fun hh => h (hh.symm.trans hp)
        simp [dictGet, dictSet, hp, h, hk, hpk']
    · by_cases hpk' : p.1 = k'
      · have hk : ¬ k' = k := fun hh => hp (hpk'.trans hh)
        simp [dictGet, dictSet, hp, hpk', hk]
      · simp [dictGet, dictSet, hp, hpk', dictGet_dictSet ps k k' v]

/-! ### C1 -/

/-- C1: for every ledger state and id, `get_account_balance` returns 0
when no account has the id, and otherwise returns the found account's
`initial_balance` plus the sum of the amounts of exactly those
transactions whose `account_id` equals the id and whose `currency` equals
that account's currency. -/
theorem get_account_balance_spec (st : DataStore) (acc_id : Int) :
    (st.get_account_by_id acc_id = none → st.get_account_balance acc_id = 0) ∧
    (∀ acc, st.get_account_by_id acc_id = some acc →
      st.get_account_balance acc_id
        = acc.initial_balance
          + ((st.transactions.filter
                (fun t => t.account_id = acc_id ∧ t.currency = acc.currency)).map
              (fun t => t.amount)).sum) := by
  constructor
  · intro h
    simp [DataStore.get_account_balance, h]
  · intro acc h
    simp only [DataStore.get_account_balance, h]
    exact foldl_cond_sum _ _ _ _

/-- C1 witness: on a concrete store, account 1 resolves and its balance is
the initial balance plus the matching-currency amounts. -/
theorem get_account_balance_spec_witness :
    sampleStore.get_account_balance 1
      = acc1.initial_balance
        + ((sampleStore.transactions.filter
              (fun t => t.account_id = 1 ∧ t.currency = acc1.currency)).map
            (fun t => t.amount)).sum :=
  (get_account_balance_spec sampleStore 1).2 acc1 (by decide)

/-! ### C5 -/

/-- C5: `get_overall_balance` equals the sum of `get_account_balance` over
all accounts of the ledger. -/
theorem get_overall_balance_spec (st : DataStore) :
    st.get_overall_balance
      = (st.accounts.map (fun a => st.get_account_balance a.id)).sum := by
  unfold DataStore.get_overall_balance
  rw [foldl_add_sum]
  ring

/-! ### C7 -/

/-- C7: when the persisted file exists but its parse fails, `load` catches
the failure and leaves the state exactly as it was, so the freshly
initialized ledger stays empty with both next-id counters at 1, for every
parse failure. -/
theorem load_parse_failure_fail_closed (st : DataStore) (e : String) :
    st.load (some (.error e)) = st
    ∧ (initStore.load (some (.error e))).accounts = []
    ∧ (initStore.load (some (.error e))).transactions = []
    ∧ (initStore.load (some (.error e))).next_acc_id = 1
    ∧ (initStore.load (some (.error e))).next_tx_id = 1 :=
  ⟨rfl, rfl, rfl, rfl, rfl⟩

/-! ### C8 -/

/-- C8: `update_account` and `update_transaction` with an id that resolves
to nothing are silent no-ops, once and twice: the state is exactly as
before, so every balance and query result is unchanged. -/
theorem update_unknown_id_noop (st : DataStore) (acc_id tx_id : Int)
    (name acc_type : String) (initial_balance : ℚ)
    (account_id : Int) (amount : ℚ) (category descr : String)
    (ha : st.get_account_by_id acc_id = none)
    (ht : st.get_transaction_by_id tx_id = none) :
    st.update_account acc_id name acc_type initial_balance = st
    ∧ st.update_transaction tx_id account_id amount category descr = st
    ∧ (st.update_account acc_id name acc_type initial_balance).update_account
        acc_id name acc_type initial_balance = st
    ∧ (st.update_transaction tx_id account_id amount category descr).update_transaction
        tx_id account_id amount category descr = st := by
  have h1 : st.update_account acc_id name acc_type initial_balance = st := by
    simp [DataStore.update_account, ha]
  have h2 : st.update_transaction tx_id account_id amount category descr = st := by
    simp [DataStore.update_transaction, ht]
  exact ⟨h1, h2, by rw [h1, h1], by rw [h2, h2]⟩

/-- C8 witness: id 99 resolves to no account and no transaction of the
concrete store, and both updates (once and twice) leave it unchanged. -/
theorem update_unknown_id_noop_witness :
    sampleStore.update_account 99 "н" "т" 5 = sampleStore
    ∧ sampleStore.update_transaction 99 1 5 "к" "о" = sampleStore
    ∧ (sampleStore.update_account 99 "н" "т" 5).update_account 99 "н" "т" 5 = sampleStore
    ∧ (sampleStore.update_transaction 99 1 5 "к" "о").update_transaction 99 1 5 "к" "о"
        = sampleStore :=
  update_unknown_id_noop sampleStore 99 99 "н" "т" 5 1 5 "к" "о" (by decide) (by decide)

/-! ### C2 -/

/-- A list of nonpositive rationals has nonpositive sum. -/
theorem list_sum_nonpos : ∀ (l : List ℚ), (∀ x ∈ l, x ≤ 0) → l.sum ≤ 0
  | [], _ => by simp
  | x :: xs, h => by
    rw [List.sum_cons]
    have hx := h x (List.mem_cons_self x xs)
    have hxs := list_sum_nonpos xs (fun y hy => h y (List.mem_cons_of_mem x hy))
    linarith

/-- Characterization of the month-summary fold from an arbitrary
accumulator: each component grows by the sum over the matching filtered
transactions. -/
theorem monthStep_foldl (now : Datetime) :
    ∀ (txs : List Transaction) (s : ℚ × ℚ × List (String × ℚ)),
      (txs.foldl (monthStep now) s).1
          = s.1 + ((txs.filter (fun t =>
              (t.date.year = now.year ∧ t.date.month = now.month) ∧ 0 ≤ t.amount)).map
              (fun t => t.amount)).sum
        ∧ (txs.foldl (monthStep now) s).2.1
          = s.2.1 + ((txs.filter (fun t =>
              (t.date.year = now.year ∧ t.date.month = now.month) ∧ t.amount < 0)).map
              (fun t => t.amount)).sum
        ∧ ∀ c : String,
            ((dictGet (txs.foldl (monthStep now) s).2.2 c).getD 0)
              = ((dictGet s.2.2 c).getD 0)
                + ((txs.filter (fun t =>
                    (t.date.year = now.year ∧ t.date.month = now.month) ∧ t.category = c)).map
                    (fun t => t.amount)).sum := by
  intro txs
  induction txs with
  | nil => intro s; simp
  | cons t ts ih =>
    intro s
    rw [List.foldl_cons]
    obtain ⟨ih1, ih2, ih3⟩ := ih (monthStep now s t)
    by_cases hm : t.date.year = now.year ∧ t.date.month = now.month
    · by_cases ha : 0 ≤ t.amount
      · have hstep : monthStep now s t
            = (s.1 + t.amount, s.2.1,
                dictSet s.2.2 t.category ((dictGet s.2.2 t.category).getD 0 + t.amount)) := by
          simp [monthStep, hm, ha]
        refine ⟨?_, ?_, ?_⟩
        · rw [ih1, hstep, List.filter_cons_of_pos (by simp [hm, ha]),
            List.map_cons, List.sum_cons]
          ring
        · rw [ih2, hstep, List.filter_cons_of_neg (by simp [hm, not_lt, ha])]
        · intro c
          rw [ih3 c, hstep]
          by_cases hc : c = t.category
          · subst hc
            rw [List.filter_cons_of_pos (by simp [hm]), List.map_cons, List.sum_cons]
            simp [dictGet_dictSet]
            ring
          · rw [List.filter_cons_of_neg (by simp [hm]; exact fun hh => hc hh.symm)]
            simp [dictGet_dictSet, hc]
      · have hstep : monthStep now s t
            = (s.1, s.2.1 + t.amount,
                dictSet s.2.2 t.category ((dictGet s.2.2 t.category).getD 0 + t.amount)) := by
          simp [monthStep, hm, ha]
        refine ⟨?_, ?_, ?_⟩
        · rw [ih1, hstep, List.filter_cons_of_neg (by simp [hm, ha])]
        · rw [ih2, hstep, List.filter_cons_of_pos (by simp [hm, not_le.mp ha]),
            List.map_cons, List.sum_cons]
          ring
        · intro c
          rw [ih3 c, hstep]
          by_cases hc : c = t.category
          · subst hc
            rw [List.filter_cons_of_pos (by simp [hm]), List.map_cons, List.sum_cons]
            simp [dictGet_dictSet]
            ring
          · rw [List.filter_cons_of_neg (by simp [hm]; exact fun hh => hc hh.symm)]
            simp [dictGet_dictSet, hc]
    · have hstep : monthStep now s t = s := by
        simp [monthStep, hm]
      refine ⟨?_, ?_, ?_⟩
      · rw [ih1, hstep, List.filter_cons_of_neg (by simp [hm])]
      · rw [ih2, hstep, List.filter_cons_of_neg (by simp [hm])]
      · intro c
        rw [ih3 c, hstep, List.filter_cons_of_neg (by simp [hm])]

/-- C2: `get_month_summary` considers exactly the transactions of the
reference month: income is the sum of the nonnegative amounts (0 counts as
income), expense is the sum of the negative amounts and is nonpositive,
and the per-category map carries the signed sum per category label. -/
theorem get_month_summary_spec (st : DataStore) (now : Datetime) :
    (st.get_month_summary now).1
        = ((st.transactions.filter (fun t =>
            (t.date.year = now.year ∧ t.date.month = now.month) ∧ 0 ≤ t.amount)).map
            (fun t => t.amount)).sum
      ∧ (st.get_month_summary now).2.1
        = ((st.transactions.filter (fun t =>
            (t.date.year = now.year ∧ t.date.month = now.month) ∧ t.amount < 0)).map
            (fun t => t.amount)).sum
      ∧ (st.get_month_summary now).2.1 ≤ 0
      ∧ ∀ c : String,
          ((dictGet (st.get_month_summary now).2.2 c).getD 0)
            = ((st.transactions.filter (fun t =>
                (t.date.year = now.year ∧ t.date.month = now.month) ∧ t.category = c)).map
                (fun t => t.amount)).sum := by
  obtain ⟨h1, h2, h3⟩ := monthStep_foldl now st.transactions (0, 0, [])
  have e1 : (st.get_month_summary now).1
      = ((st.transactions.filter (fun t =>
          (t.date.year = now.year ∧ t.date.month = now.month) ∧ 0 ≤ t.amount)).map
          (fun t => t.amount)).sum := by
    rw [DataStore.get_month_summary, h1]; ring
  have e2 : (st.get_month_summary now).2.1
      = ((st.transactions.filter (fun t =>
          (t.date.year = now.year ∧ t.date.month = now.month) ∧ t.amount < 0)).map
          (fun t => t.amount)).sum := by
    rw [DataStore.get_month_summary, h2]; ring
  refine ⟨e1, e2, ?_, ?_⟩
  · rw [e2]
    refine list_sum_nonpos _ ?_
    intro x hx
    obtain ⟨t, ht, rfl⟩ := List.mem_map.mp hx
    have := List.of_mem_filter ht
    simp only [decide_eq_true_eq] at this
    exact le_of_lt this.2
  · intro c
    have := h3 c
    rw [DataStore.get_month_summary, this]
    simp [dictGet]

/-! ### C10 -/

/-- The in-month amounts split into the nonnegative and the negative ones. -/
theorem sum_filter_sign_split (now : Datetime) :
    ∀ txs : List Transaction,
      ((txs.filter (fun t =>
          (t.date.year = now.year ∧ t.date.month = now.month) ∧ 0 ≤ t.amount)).map
          (fun t => t.amount)).sum
        + ((txs.filter (fun t =>
            (t.date.year = now.year ∧ t.date.month = now.month) ∧ t.amount < 0)).map
            (fun t => t.amount)).sum
        = ((txs.filter (fun t =>
            t.date.year = now.year ∧ t.date.month = now.month)).map
            (fun t => t.amount)).sum
  | [] => by simp
  | t :: ts => by
    have ih := sum_filter_sign_split now ts
    by_cases hm : t.date.year = now.year ∧ t.date.month = now.month
    · by_cases ha : 0 ≤ t.amount
      · rw [List.filter_cons_of_pos (by simp [hm, ha]),
          List.filter_cons_of_neg (by simp [hm, not_lt, ha]),
          List.filter_cons_of_pos (by simp [hm]),
          List.map_cons, List.sum_cons, List.map_cons, List.sum_cons]
        linarith
      · rw [List.filter_cons_of_neg (by simp [hm, ha]),
          List.filter_cons_of_pos (by simp [hm, not_le.mp ha]),
          List.filter_cons_of_pos (by simp [hm]),
          List.map_cons, List.sum_cons, List.map_cons, List.sum_cons]
        linarith
    · rw [List.filter_cons_of_neg (by simp [hm]),
        List.filter_cons_of_neg (by simp [hm]),
        List.filter_cons_of_neg (by simp [hm])]
      exact ih

/-- C10: `get_month_summary` applies no account or currency filter: it is
unchanged when the accounts list is replaced arbitrarily and when every
transaction's `account_id` and `currency` are remapped arbitrarily;
income plus expense is the sum of the amounts of all in-month
transactions; and on the concrete store the currency-mismatched in-month
transaction `tx3` is excluded from `get_account_balance` yet counted by
`get_month_summary`. -/
theorem get_month_summary_no_account_currency_filter :
    (∀ (st : DataStore) (now : Datetime) (accs : List Account),
      DataStore.get_month_summary { st with accounts := accs } now
        = st.get_month_summary now)
    ∧ (∀ (st : DataStore) (now : Datetime) (f : Transaction → Int) (g : Transaction → String),
        DataStore.get_month_summary
          { st with transactions := (st.transactions.map
              (fun t => { t with account_id := f t, currency := g t })) } now
          = st.get_month_summary now)
    ∧ (∀ (st : DataStore) (now : Datetime),
        (st.get_month_summary now).1 + (st.get_month_summary now).2.1
          = ((st.transactions.filter (fun t =>
              t.date.year = now.year ∧ t.date.month = now.month)).map
              (fun t => t.amount)).sum)
    ∧ (tx3.currency ≠ acc1.currency
        ∧ tx3.date.year = dMay3.year ∧ tx3.date.month = dMay3.month
        ∧ sampleStore.get_account_balance 1 = 1300
        ∧ (sampleStore.get_month_summary dMay3).1 = 600
        ∧ (sampleStore.get_month_summary dMay3).2.1 = -200) := by
  refine ⟨?_, ?_, ?_, ?_⟩
  · intro st now accs
    rfl
  · intro st now f g
    show (st.transactions.map _).foldl (monthStep now) (0, 0, []) = _
    rw [List.foldl_map]
    rfl
  · intro st now
    obtain ⟨h1, h2, _⟩ := monthStep_foldl now st.transactions (0, 0, [])
    have := sum_filter_sign_split now st.transactions
    unfold DataStore.get_month_summary
    rw [h1, h2]
    dsimp only
    linarith
  · have hbal : sampleStore.get_account_balance 1 = 1300 := by
      norm_num [sampleStore, DataStore.get_account_balance, DataStore.get_account_by_id,
        List.find?, acc1, acc2, tx1, tx2, tx3, tx4]
      decide
    have hinc : (sampleStore.get_month_summary dMay3).1 = 600 := by
      norm_num [sampleStore, DataStore.get_month_summary, monthStep, dictGet, dictSet,
        acc1, acc2, tx1, tx2, tx3, tx4, dMay3, dMay7, dMay7b, dJun1]
    have hexp : (sampleStore.get_month_summary dMay3).2.1 = -200 := by
      norm_num [sampleStore, DataStore.get_month_summary, monthStep, dictGet, dictSet,
        acc1, acc2, tx1, tx2, tx3, tx4, dMay3, dMay7, dMay7b, dJun1]
    exact ⟨by decide, by decide, by decide, hbal, hinc, hexp⟩

/-! ### C6 -/

/-- `Datetime` comparison is transitive. -/
theorem dt_le_trans {a b c : Datetime} (h1 : a ≤ b) (h2 : b ≤ c) : a ≤ c := by
  have h1' : a.key ≤ b.key := h1
  have h2' : b.key ≤ c.key := h2
  exact le_trans h1' h2'

/-- `Datetime` comparison is total. -/
theorem dt_le_of_not_le {a b : Datetime} (h : ¬ a ≤ b) : b ≤ a := by
  have h' : ¬ a.key ≤ b.key := h
  exact le_of_not_le h'

/-- Inserting into the sorted list produces a permutation of consing. -/
theorem insertDesc_perm (t : Transaction) :
    ∀ l : List Transaction, (insertDesc t l).Perm (t :: l)
  | [] => List.Perm.refl _
  | u :: us => by
    by_cases hle : u.date ≤ t.date
    · simp [insertDesc, hle]
    · simp only [insertDesc, if_neg hle]
      exact ((insertDesc_perm t us).cons u).trans (List.Perm.swap t u us)

/-- Insertion preserves sortedness by date descending. -/
theorem insertDesc_sorted (t : Transaction) :
    ∀ l : List Transaction, l.Pairwise (fun a b => b.date ≤ a.date) →
      (insertDesc t l).Pairwise (fun a b => b.date ≤ a.date)
  | [], _ => by simp [insertDesc]
  | u :: us, h => by
    rw [List.pairwise_cons] at h
    obtain ⟨hu, hus⟩ := h
    by_cases hle : u.date ≤ t.date
    · simp only [insertDesc, if_pos hle]
      refine List.Pairwise.cons ?_ (List.Pairwise.cons hu hus)
      intro x hx
      rcases List.mem_cons.mp hx with rfl | hxus
      · exact hle
      · exact dt_le_trans (hu x hxus) hle
    · simp only [insertDesc, if_neg hle]
      refine List.Pairwise.cons ?_ (insertDesc_sorted t us hus)
      intro x hx
      rcases List.mem_cons.mp ((insertDesc_perm t us).mem_iff.mp hx) with rfl | hxus
      · exact dt_le_of_not_le hle
      · exact hu x hxus

/-- Insertion commutes with filtering on any fixed date: the inserted
element passes every element of strictly greater date, so the
equal-or-smaller dated elements keep their relative positions. -/
theorem filter_insertDesc (d : Datetime) (t : Transaction) :
    ∀ l : List Transaction,
      (insertDesc t l).filter (fun u => u.date = d)
        = ((t :: l).filter (fun u => u.date = d))
  | [] => rfl
  | u :: us => by
    by_cases hle : u.date ≤ t.date
    · simp [insertDesc, hle]
    · simp only [insertDesc, if_neg hle]
      by_cases hu : u.date = d
      · by_cases ht : t.date = d
        · exact absurd (show u.date ≤ t.date from by
            rw [show u.date = t.date from hu.trans ht.symm]
            exact le_refl t.date.key) hle
        · rw [List.filter_cons_of_pos (by simp [hu]), filter_insertDesc d t us,
            List.filter_cons_of_neg (by simp [ht]),
            List.filter_cons_of_neg (by simp [ht]),
            List.filter_cons_of_pos (by simp [hu])]
      · rw [List.filter_cons_of_neg (by simp [hu]), filter_insertDesc d t us]
        by_cases ht : t.date = d
        · rw [List.filter_cons_of_pos (by simp [ht]), List.filter_cons_of_pos (by simp [ht]),
            List.filter_cons_of_neg (by simp [hu])]
        · rw [List.filter_cons_of_neg (by simp [ht]), List.filter_cons_of_neg (by simp [ht]),
            List.filter_cons_of_neg (by simp [hu])]

/-- The sort is a permutation. -/
theorem sortByDateDesc_perm : ∀ l : List Transaction, (sortByDateDesc l).Perm l
  | [] => List.Perm.refl _
  | t :: ts => (insertDesc_perm t (sortByDateDesc ts)).trans ((sortByDateDesc_perm ts).cons t)

/-- The sort output is sorted by date descending. -/
theorem sortByDateDesc_sorted :
    ∀ l : List Transaction, (sortByDateDesc l).Pairwise (fun a b => b.date ≤ a.date)
  | [] => List.Pairwise.nil
  | t :: ts => insertDesc_sorted t _ (sortByDateDesc_sorted ts)

/-- The sort is stable: the elements of any fixed date come out in their
stored order. -/
theorem filter_sortByDateDesc (d : Datetime) :
    ∀ l : List Transaction,
      (sortByDateDesc l).filter (fun u => u.date = d) = l.filter (fun u => u.date = d)
  | [] => rfl
  | t :: ts => by
    rw [show sortByDateDesc (t :: ts) = insertDesc t (sortByDateDesc ts) from rfl,
      filter_insertDesc d t (sortByDateDesc ts)]
    by_cases ht : t.date = d
    · rw [List.filter_cons_of_pos (by simp [ht]), List.filter_cons_of_pos (by simp [ht]),
        filter_sortByDateDesc d ts]
    · rw [List.filter_cons_of_neg (by simp [ht]), List.filter_cons_of_neg (by simp [ht]),
        filter_sortByDateDesc d ts]

/-- C6: `get_transactions` returns all the stored transactions (a
permutation), sorted by timestamp descending, and transactions of equal
timestamp keep the relative order they have in the underlying storage. -/
theorem get_transactions_sorted_stable (st : DataStore) :
    (st.get_transactions).Perm st.transactions
    ∧ (st.get_transactions).Pairwise (fun a b => b.date ≤ a.date)
    ∧ ∀ d : Datetime,
        (st.get_transactions).filter (fun t => t.date = d)
          = st.transactions.filter (fun t => t.date = d) :=
  ⟨sortByDateDesc_perm st.transactions, sortByDateDesc_sorted st.transactions,
    fun d => filter_sortByDateDesc d st.transactions⟩

/-! ### C4 -/

/-- `maxId` of a non-empty list with one element appended. -/
theorem maxId_append (xs : List Int) (hx : xs ≠ []) (v : Int) :
    maxId (xs ++ [v]) = max (maxId xs) v := by
  match xs with
  | [] => exact absurd rfl hx
  | x :: xs' => simp [maxId, List.foldl_append]

/-- Packaging of `Int.ofNat` successor arithmetic. -/
theorem int_ofNat_arith (m n : ℕ) (h : m = n + 1) : Int.ofNat m = Int.ofNat n + 1 := by
  subst h
  exact Int.ofNat_succ n

/-- `maxId` of the ids `1, …, n+1`. -/
theorem maxId_range' : ∀ n : ℕ, maxId ((List.range' 1 (n + 1)).map Int.ofNat) = Int.ofNat (n + 1)
  | 0 => rfl
  | n + 1 => by
    rw [List.range'_1_concat 1 (n + 1), List.map_append]
    simp only [List.map_cons, List.map_nil]
    rw [maxId_append _ (by simp) (Int.ofNat (1 + (n + 1))), maxId_range' n,
      congrArg Int.ofNat (show 1 + (n + 1) = n + 1 + 1 by omega)]
    exact max_eq_right (Int.ofNat_le.mpr (by omega))

/-- Invariant of `applyAdds`: starting from ids `1, …, k` with the counter
at `k + 1`, a sequence of `n` calls leaves ids `1, …, k + n` and the
counter at `k + n + 1`. -/
theorem applyAdds_ids :
    ∀ (l : List AddParams) (st : DataStore) (k : ℕ),
      st.accounts.map (fun a => a.id) = (List.range' 1 k).map Int.ofNat →
      st.next_acc_id = Int.ofNat (k + 1) →
      ((st.applyAdds l).accounts.map (fun a => a.id)
          = (List.range' 1 (k + l.length)).map Int.ofNat
        ∧ (st.applyAdds l).next_acc_id = Int.ofNat (k + l.length + 1))
  | [], st, k, hids, hnext => by
    simp only [DataStore.applyAdds, List.length_nil, Nat.add_zero]
    exact ⟨hids, hnext⟩
  | p :: ps, st, k, hids, hnext => by
    have hstep_ids :
        ((st.add_account p.name p.acc_type p.currency p.initial_balance).2).accounts.map
            (fun a => a.id)
          = (List.range' 1 (k + 1)).map Int.ofNat := by
      simp only [DataStore.add_account, List.map_append, hids, List.map_cons, List.map_nil]
      rw [List.range'_1_concat, List.map_append]
      simp [hnext, Nat.add_comm]
    have hstep_next :
        ((st.add_account p.name p.acc_type p.currency p.initial_balance).2).next_acc_id
          = Int.ofNat (k + 1 + 1) := by
      simp only [DataStore.add_account]
      rw [hnext]
      exact (int_ofNat_arith (k + 1 + 1) (k + 1) rfl).symm
    have hlen : k + (p :: ps).length = (k + 1) + ps.length := by
      simp only [List.length_cons]
      omega
    rw [show st.applyAdds (p :: ps)
        = ((st.add_account p.name p.acc_type p.currency p.initial_balance).2).applyAdds ps
      from rfl, hlen]
    exact applyAdds_ids ps _ (k + 1) hstep_ids hstep_next

/-- C4: on a freshly constructed ledger, every sequence of `add_account`
calls leaves the account ids exactly `1, …, n+1` (seed included), hence
strictly increasing, pairwise distinct and starting at 1; and the next
call issues the current maximum id plus one, appends the returned account
and returns it. -/
theorem add_account_ids_strictly_increasing (l : List AddParams) (p : AddParams) :
    (freshAfter l).accounts.map (fun a => a.id)
        = (List.range' 1 (l.length + 1)).map Int.ofNat
    ∧ ((freshAfter l).accounts.map (fun a => a.id)).Pairwise (fun x y => x < y)
    ∧ ((freshAfter l).accounts.map (fun a => a.id)).head? = some 1
    ∧ ((freshAfter l).add_account p.name p.acc_type p.currency p.initial_balance).1.id
        = maxId ((freshAfter l).accounts.map (fun a => a.id)) + 1
    ∧ ((freshAfter l).add_account p.name p.acc_type p.currency p.initial_balance).2.accounts
        = (freshAfter l).accounts
          ++ [((freshAfter l).add_account p.name p.acc_type p.currency p.initial_balance).1] := by
  have hbase_ids : (DataStore.construct none).accounts.map (fun a => a.id)
      = (List.range' 1 1).map Int.ofNat := rfl
  have hbase_next : (DataStore.construct none).next_acc_id = Int.ofNat 2 := rfl
  obtain ⟨hids, hnext⟩ := applyAdds_ids l (DataStore.construct none) 1 hbase_ids hbase_next
  have hids' : (freshAfter l).accounts.map (fun a => a.id)
      = (List.range' 1 (l.length + 1)).map Int.ofNat := by
    rw [freshAfter, hids, Nat.add_comm]
  have hnext' : (freshAfter l).next_acc_id = Int.ofNat (l.length + 2) := by
    rw [freshAfter, hnext]
    exact congrArg Int.ofNat (by omega)
  refine ⟨hids', ?_, ?_, ?_, rfl⟩
  · rw [hids']
    exact List.Pairwise.map Int.ofNat (fun a b h => Int.ofNat_lt.mpr h)
      (List.pairwise_lt_range' 1 (l.length + 1))
  · rw [hids', List.range'_succ]
    rfl
  · rw [show ((freshAfter l).add_account p.name p.acc_type p.currency p.initial_balance).1.id
        = (freshAfter l).next_acc_id from rfl, hnext', hids', maxId_range']
    exact int_ofNat_arith (l.length + 2) (l.length + 1) (by omega)

/-! ### C3 -/

/-- Parsing the dict written for an account gives back the account. -/
theorem from_dict_to_dict_account (a : Account) :
    Account.from_dict a.to_dict = Except.ok a := rfl

/-- Parsing the dict written for a transaction gives back the transaction. -/
theorem from_dict_to_dict_transaction (t : Transaction) :
    Transaction.from_dict t.to_dict = Except.ok t := rfl

/-- Parsing the serialized account list reproduces it. -/
theorem mapE_accounts :
    ∀ l : List Account, mapE Account.from_dict (l.map Account.to_dict) = Except.ok l
  | [] => rfl
  | a :: as => by
    simp only [List.map_cons, mapE, from_dict_to_dict_account, mapE_accounts as]

/-- Parsing the serialized transaction list reproduces it. -/
theorem mapE_transactions :
    ∀ l : List Transaction, mapE Transaction.from_dict (l.map Transaction.to_dict) = Except.ok l
  | [] => rfl
  | t :: ts => by
    simp only [List.map_cons, mapE, from_dict_to_dict_transaction, mapE_transactions ts]

/-- Loading a saved file restores the accounts and the transactions into
any starting state. -/
theorem load_save (stZero st : DataStore) :
    (stZero.load (some (Except.ok st.save))).accounts = st.accounts
    ∧ (stZero.load (some (Except.ok st.save))).transactions = st.transactions := by
  by_cases he : st.accounts.isEmpty <;> by_cases ht : st.transactions.isEmpty <;>
    simp [DataStore.load, DataStore.save, mapE_accounts, mapE_transactions, he, ht]

/-- C3: saving and then loading into a freshly constructed ledger instance
reproduces exactly the original accounts and transactions (every field,
timestamps included). -/
theorem save_load_roundtrip (st : DataStore) (h : st.accounts ≠ []) :
    (DataStore.construct (some (Except.ok st.save))).accounts = st.accounts
    ∧ (DataStore.construct (some (Except.ok st.save))).transactions = st.transactions := by
  obtain ⟨ha, ht⟩ := load_save initStore st
  have hne : (initStore.load (some (Except.ok st.save))).accounts.isEmpty = false := by
    rw [ha]
    exact List.isEmpty_eq_false.mpr h
  simp only [DataStore.construct, hne]
  simp [ha, ht]

/-- C3 witness: the round trip on the concrete store. -/
theorem save_load_roundtrip_witness :
    (DataStore.construct (some (Except.ok sampleStore.save))).accounts = sampleStore.accounts
    ∧ (DataStore.construct (some (Except.ok sampleStore.save))).transactions
        = sampleStore.transactions :=
  save_load_roundtrip sampleStore (by decide)

/-! ### C9 -/

/-- Looking up the dict built by inserting a list of accounts with
pairwise-distinct ids over a base dict that contains none of those ids:
the result is the first (equivalently only) matching account, falling back
to the base dict. -/
theorem dictGet_build (i : Int) :
    ∀ (l : List Account) (m : List (Int × Account)),
      (∀ a ∈ l, dictGet m a.id = none) →
      (l.map (fun a => a.id)).Nodup →
      dictGet (l.foldl (fun m a => dictSet m a.id a) m) i
        = (match l.find? (fun a => a.id = i) with
            | some a => some a
            | none => dictGet m i)
  | [], m, _, _ => rfl
  | a :: l', m, hdisj, hnd => by
    rw [List.map_cons, List.nodup_cons] at hnd
    obtain ⟨hnin, hnd'⟩ := hnd
    have hdisj' : ∀ b ∈ l', dictGet (dictSet m a.id a) b.id = none := by
      intro b hb
      rw [dictGet_dictSet]
      have hne : ¬ b.id = a.id := fun hh =>
        hnin (hh ▸ List.mem_map_of_mem (fun a => a.id) hb)
      rw [if_neg hne]
      exact hdisj b (List.mem_cons_of_mem a hb)
    have ih := dictGet_build i l' (dictSet m a.id a) hdisj' hnd'
    rw [show (a :: l').foldl (fun m a => dictSet m a.id a) m
        = l'.foldl (fun m a => dictSet m a.id a) (dictSet m a.id a) from rfl, ih]
    by_cases ha : a.id = i
    · rw [List.find?_cons_of_pos _ (by simpa using ha)]
      have hfind : l'.find? (fun a => a.id = i) = none := by
        rcases hfe : l'.find? (fun a => a.id = i) with _ | b
        · exact hfe
        · exfalso
          have hbi : b.id = i := by simpa using List.find?_some hfe
          have hbmem := List.mem_of_find?_eq_some hfe
          exact hnin (by
            rw [show a.id = b.id from ha.trans hbi.symm]
            exact List.mem_map_of_mem (fun a => a.id) hbmem)
      simp only [hfind]
      rw [dictGet_dictSet, if_pos ha.symm]
    · rw [List.find?_cons_of_neg _ (by simpa using ha)]
      rcases hfe : l'.find? (fun a => a.id = i) with _ | b
      · simp only [hfe]
        rw [dictGet_dictSet, if_neg (fun hh => ha hh.symm)]
      · simp only [hfe]

/-- When account ids are pairwise distinct, the export's dict lookup
agrees with the ledger's first-match account resolution. -/
theorem dictGet_acc_by_id (st : DataStore)
    (h : (st.accounts.map (fun a => a.id)).Nodup) (i : Int) :
    dictGet (st.accounts.foldl (fun m a => dictSet m a.id a) []) i
      = st.get_account_by_id i := by
  rw [dictGet_build i st.accounts [] (fun a _ => rfl) h]
  rcases hfe : st.accounts.find? (fun a => a.id = i) with _ | b <;>
    simp [DataStore.get_account_by_id, hfe, dictGet]

/-- Escaping the description removes every semicolon. -/
theorem escapeDesc_no_semicolon (s : String) : ';' ∉ (escapeDesc s).data := by
  intro hmem
  rw [show (escapeDesc s).data = s.data.map (fun c => if c = ';' then ',' else c) from rfl]
    at hmem
  obtain ⟨c, _, hc⟩ := List.mem_map.mp hmem
  by_cases h' : c = ';'
  · rw [if_pos h'] at hc
    exact absurd hc (by decide)
  · rw [if_neg h'] at hc
    exact h' hc

/-- Appending one rendered line per element equals the initial lines
followed by the rendered list. -/
theorem foldl_append_map {α : Type} (f : α → String) :
    ∀ (l : List α) (init : List String),
      l.foldl (fun lines t => lines ++ [f t]) init = init ++ l.map f
  | [], init => by simp
  | x :: xs, init => by
    rw [List.foldl_cons, foldl_append_map f xs (init ++ [f x]), List.map_cons]
    simp

/-- C9 counterexample: on a freshly constructed ledger the first exported
line is the Russian header of the source, not the header
`ID;Date;Account;Category;Description;Amount;Currency` the claim states. -/
theorem export_csv_header_counterexample :
    (DataStore.construct none).export_csv.head?
      ≠ some "ID;Date;Account;Category;Description;Amount;Currency" := by
  decide

/-- C9 amended: when account ids are pairwise distinct (as the ledger
issues them), `export_csv` is the header line
`ID;Дата;Счет;Категория;Описание;Сумма;Валюта` followed by one row per
transaction in `get_transactions` order, each row carrying the id, the
`YYYY-MM-DD HH:MM` timestamp, the resolved account name or `"?"`, the
category, the double-quoted description with every `;` replaced by `,`,
the amount and the currency; and the escaped description never contains
the delimiter. -/
theorem export_csv_spec_amended (st : DataStore)
    (h : (st.accounts.map (fun a => a.id)).Nodup) :
    st.export_csv
        = "ID;Дата;Счет;Категория;Описание;Сумма;Валюта"
            :: st.get_transactions.map (specRow st)
    ∧ ∀ s : String, ';' ∉ (escapeDesc s).data := by
  refine ⟨?_, fun s => escapeDesc_no_semicolon s⟩
  show DataStore.export_csv st = _
  simp only [DataStore.export_csv, foldl_append_map, List.singleton_append]
  congr 1
  refine List.map_congr_left ?_
  intro t _
  rw [dictGet_acc_by_id st h t.account_id]
  rfl

/-- C9 amended witness: the export of the concrete store. -/
theorem export_csv_spec_amended_witness :
    sampleStore.export_csv
        = "ID;Дата;Счет;Категория;Описание;Сумма;Валюта"
            :: sampleStore.get_transactions.map (specRow sampleStore)
    ∧ ∀ s : String, ';' ∉ (escapeDesc s).data :=
  export_csv_spec_amended sampleStore (by decide)
